import Mathlib

/-!
# Syntra — verification of the connection-discovery and semantic-ranking engine

This file gives a shallow embedding of the Syntra personal-knowledge system:
the backend similarity / connection-discovery / search-ranking engine and the
frontend screens (`add-node`, `search`, `graph`) of the Expo application, and
proves the stated properties about them.

The backend `server.py` is not part of the repository snapshot (only the
frontend screens and documentation are present), so the engine definitions
below are modelled from the specification; each such definition carries a
doc comment saying so.  The frontend definitions are translated directly
from the TypeScript sources.
-/

namespace Syntra

/-! ## Vectors and cosine similarity (Similarity Engine) -/

/-- Embedding vectors: fixed-length real vectors (384 components in the
reference system); we model them as lists of reals. -/
abbrev Vec := List ℝ

/-- Modelled from the spec: the dot product of two vectors, used by the
Similarity Engine of the missing backend `server.py`. -/
def dot (a b : Vec) : ℝ :=
  (List.zipWith (· * ·) a b).sum

/-- Modelled from the spec: the Euclidean norm of a vector, used by the
Similarity Engine of the missing backend `server.py`. -/
noncomputable def norm (a : Vec) : ℝ :=
  Real.sqrt (dot a a)

/-- Modelled from the spec: cosine similarity (§4.1 of the design), from the
missing backend `server.py`.  Dot product divided by the product of the two
Euclidean norms; if either vector has zero norm the result is defined to be
`0` instead of dividing by zero. -/
noncomputable def similarity (a b : Vec) : ℝ :=
  if norm a = 0 ∨ norm b = 0 then 0 else dot a b / (norm a * norm b)

theorem dot_cons (x y : ℝ) (a b : Vec) :
    dot (x :: a) (y :: b) = x * y + dot a b := by
  simp [dot]

theorem dot_nil_left (b : Vec) : dot [] b = 0 := by
  simp [dot]

theorem dot_nil_right (a : Vec) : dot a [] = 0 := by
  simp [dot]

theorem dot_comm (a b : Vec) : dot a b = dot b a := by
  induction a generalizing b with
  | nil => simp [dot_nil_left, dot_nil_right]
  | cons x as ih =>
    cases b with
    | nil => simp [dot_nil_left, dot_nil_right]
    | cons y bs => rw [dot_cons, dot_cons, ih, mul_comm]

theorem dot_self_nonneg (a : Vec) : 0 ≤ dot a a := by
  induction a with
  | nil => simp [dot_nil_left]
  | cons x as ih =>
    rw [dot_cons]
    nlinarith [sq_nonneg x]

theorem norm_nonneg_vec (a : Vec) : 0 ≤ norm a :=
  Real.sqrt_nonneg _

theorem norm_sq (a : Vec) : norm a ^ 2 = dot a a := by
  rw [norm, sq, Real.mul_self_sqrt (dot_self_nonneg a)]

theorem cs_step (x y d sa sb : ℝ) (hsa : 0 ≤ sa) (hsb : 0 ≤ sb)
    (hd : d ^ 2 ≤ sa * sb) : 2 * (x * y * d) ≤ x ^ 2 * sb + y ^ 2 * sa := by
  have habs : |d| ≤ Real.sqrt sa * Real.sqrt sb := by
    rw [← Real.sqrt_mul hsa, ← Real.sqrt_sq_eq_abs]
    exact Real.sqrt_le_sqrt hd
  have h1 : x * y * d ≤ |x| * |y| * |d| := by
    calc x * y * d ≤ |x * y * d| := le_abs_self _
      _ = |x| * |y| * |d| := by rw [abs_mul, abs_mul]
  have h2 : |x| * |y| * |d| ≤ |x| * |y| * (Real.sqrt sa * Real.sqrt sb) :=
    mul_le_mul_of_nonneg_left habs (by positivity)
  have h3 : 2 * (|x| * Real.sqrt sb) * (|y| * Real.sqrt sa) ≤
      (|x| * Real.sqrt sb) ^ 2 + (|y| * Real.sqrt sa) ^ 2 :=
    two_mul_le_add_sq _ _
  have hxs : (|x| * Real.sqrt sb) ^ 2 = x ^ 2 * sb := by
    rw [mul_pow, sq_abs, Real.sq_sqrt hsb]
  have hys : (|y| * Real.sqrt sa) ^ 2 = y ^ 2 * sa := by
    rw [mul_pow, sq_abs, Real.sq_sqrt hsa]
  nlinarith [h1, h2, h3, hxs, hys]

/-- Cauchy–Schwarz for the list dot product. -/
theorem dot_sq_le (a b : Vec) : dot a b ^ 2 ≤ dot a a * dot b b := by
  induction a generalizing b with
  | nil => simp [dot_nil_left]
  | cons x as ih =>
    cases b with
    | nil => simp [dot_nil_right, dot_nil_left]
    | cons y bs =>
      rw [dot_cons, dot_cons, dot_cons]
      have h1 := ih bs
      have h2 := dot_self_nonneg as
      have h3 := dot_self_nonneg bs
      have hk := cs_step x y (dot as bs) (dot as as) (dot bs bs) h2 h3 h1
      nlinarith [hk, h1]

theorem abs_dot_le (a b : Vec) : |dot a b| ≤ norm a * norm b := by
  have h : dot a b ^ 2 ≤ (norm a * norm b) ^ 2 := by
    rw [mul_pow, norm_sq, norm_sq]
    exact dot_sq_le a b
  have hn : 0 ≤ norm a * norm b := mul_nonneg (norm_nonneg_vec a) (norm_nonneg_vec b)
  calc |dot a b| = Real.sqrt (dot a b ^ 2) := (Real.sqrt_sq_eq_abs _).symm
    _ ≤ Real.sqrt ((norm a * norm b) ^ 2) := Real.sqrt_le_sqrt h
    _ = norm a * norm b := Real.sqrt_sq hn

/-- The similarity score always lies in `[-1, 1]`. -/
theorem similarity_mem_Icc (a b : Vec) :
    -1 ≤ similarity a b ∧ similarity a b ≤ 1 := by
  rw [similarity]
  by_cases h : norm a = 0 ∨ norm b = 0
  · rw [if_pos h]
    constructor <;> norm_num
  · rw [if_neg h]
    push_neg at h
    have ha : 0 < norm a := lt_of_le_of_ne (norm_nonneg_vec a) (Ne.symm h.1)
    have hb : 0 < norm b := lt_of_le_of_ne (norm_nonneg_vec b) (Ne.symm h.2)
    have hpos : 0 < norm a * norm b := mul_pos ha hb
    have := abs_dot_le a b
    constructor
    · rw [le_div_iff₀ hpos]
      have : -(norm a * norm b) ≤ dot a b := neg_le_of_abs_le this
      linarith
    · rw [div_le_one hpos]
      exact le_of_abs_le this

/-- C2: on equal-length vectors, a zero-norm operand makes `similarity`
return `0` (no division-by-zero is ever performed, the function is total);
otherwise it returns the dot product divided by the product of the two
Euclidean norms. -/
theorem similarity_zero_norm_policy (a b : Vec) (_h : a.length = b.length) :
    ((norm a = 0 ∨ norm b = 0) → similarity a b = 0) ∧
      (¬(norm a = 0 ∨ norm b = 0) →
        similarity a b = dot a b / (norm a * norm b)) := by
  constructor
  · intro hz
    rw [similarity, if_pos hz]
  · intro hz
    rw [similarity, if_neg hz]

def vzero : Vec := [0, 0]

def e1 : Vec := [1, 0]

theorem norm_vzero : norm vzero = 0 := by
  simp [norm, dot, vzero]

theorem norm_e1 : norm e1 = 1 := by
  simp [norm, dot, e1]

theorem similarity_zero_norm_policy_witness :
    vzero.length = e1.length ∧ (norm vzero = 0 ∨ norm e1 = 0) ∧
      similarity vzero e1 = 0 :=
  ⟨by simp [vzero, e1], Or.inl norm_vzero,
    (similarity_zero_norm_policy vzero e1 (by simp [vzero, e1])).1
      (Or.inl norm_vzero)⟩

/-- C4: cosine similarity is symmetric on equal-length vectors. -/
theorem similarity_symm (a b : Vec) (_h : a.length = b.length) :
    similarity a b = similarity b a := by
  by_cases hz : norm a = 0 ∨ norm b = 0
  · rw [similarity, similarity, if_pos hz, if_pos (or_comm.mp hz)]
  · rw [similarity, similarity, if_neg hz,
      if_neg (fun hc => hz (or_comm.mp hc)), dot_comm,
      mul_comm (norm a) (norm b)]

theorem similarity_symm_witness :
    e1.length = vzero.length ∧ similarity e1 vzero = similarity vzero e1 :=
  ⟨by simp [e1, vzero], similarity_symm e1 vzero (by simp [e1, vzero])⟩

theorem sim_e1 : similarity e1 e1 = 1 := by
  have hne : ¬(norm e1 = 0 ∨ norm e1 = 0) := by rw [norm_e1]; norm_num
  rw [similarity, if_neg hne, norm_e1]
  norm_num [dot, e1]

/-! ## Knowledge nodes and connection discovery (Connection Discovery Engine) -/

/-- Characters of a string literal, used for identifiers and JS strings. -/
def strL (s : String) : List Char := s.toList

/-- A stored knowledge node, restricted to the fields the engine reads: its
identifier and its embedding vector (title, content, type, tags and the
timestamp never influence discovery or ranking). -/
structure KNode where
  id : List Char
  embedding : Vec

/-- A discovered connection record: `fromNodeId`, `toNodeId` and the
similarity score at creation time. -/
structure Conn where
  fromNodeId : List Char
  toNodeId : List Char
  similarityScore : ℝ

/-- Modelled from the spec (§4.2): `discoverConnections` of the missing
backend `server.py`.  For each existing node, in the supplied order, a
candidate connection from the new node is produced iff the similarity of
the two embeddings strictly exceeds the fixed threshold `0.75`. -/
noncomputable def discoverConnections (newNode : KNode)
    (existingNodes : List KNode) : List Conn :=
  existingNodes.filterMap fun n =>
    if 0.75 < similarity newNode.embedding n.embedding then
      some ⟨newNode.id, n.id, similarity newNode.embedding n.embedding⟩
    else none

/-- C1: `discoverConnections` on an empty set of existing nodes returns the
empty list, and for every existing node the corresponding connection is
produced if and only if the cosine similarity of the two embeddings is
strictly greater than `0.75` (so a similarity of exactly `0.75` produces no
connection). -/
theorem discoverConnections_spec (newNode : KNode)
    (existingNodes : List KNode) :
    discoverConnections newNode [] = [] ∧
    ∀ n ∈ existingNodes,
      (Conn.mk newNode.id n.id (similarity newNode.embedding n.embedding) ∈
          discoverConnections newNode existingNodes ↔
        0.75 < similarity newNode.embedding n.embedding) := by
  constructor
  · simp [discoverConnections]
  · intro n hn
    constructor
    · intro hc
      rcases List.mem_filterMap.mp hc with ⟨m, _hm, hsome⟩
      by_cases hlt : 0.75 < similarity newNode.embedding m.embedding
      · rw [if_pos hlt] at hsome
        have hfields := Option.some.inj hsome
        have hs : similarity newNode.embedding m.embedding =
            similarity newNode.embedding n.embedding :=
          congrArg Conn.similarityScore hfields
        exact hs ▸ hlt
      · rw [if_neg hlt] at hsome
        exact absurd hsome (by simp)
    · intro hlt
      exact List.mem_filterMap.mpr ⟨n, hn, by rw [if_pos hlt]⟩

def nodeA : KNode := ⟨strL "a", e1⟩

def nodeB : KNode := ⟨strL "b", e1⟩

theorem discoverConnections_spec_witness :
    nodeB ∈ [nodeB] ∧
      Conn.mk nodeA.id nodeB.id (similarity nodeA.embedding nodeB.embedding) ∈
        discoverConnections nodeA [nodeB] := by
  refine ⟨by simp, ?_⟩
  apply ((discoverConnections_spec nodeA [nodeB]).2 nodeB (by simp)).mpr
  have hs : similarity nodeA.embedding nodeB.embedding = 1 := by
    simpa [nodeA, nodeB] using sim_e1
  rw [hs]
  norm_num

/-! ## Search Ranker -/

/-- The fixed result bound `k = 10` of the Search Ranker. -/
def searchK : ℕ := 10

/-- Modelled from the spec (§4.3): the Search Ranker of the missing backend
`server.py` first scores every stored node against the query vector. -/
noncomputable def scored (q : Vec) (nodes : List KNode) : List (KNode × ℝ) :=
  nodes.map fun n => (n, similarity q n.embedding)

/-- Descending-similarity comparison on scored nodes. -/
def descSim : KNode × ℝ → KNode × ℝ → Prop := fun x y => y.2 ≤ x.2

/-- Descending-similarity comparison on index-tagged scored nodes; the index
tag is ignored, only the score is compared. -/
def descSimIdx : ℕ × KNode × ℝ → ℕ × KNode × ℝ → Prop := fun x y =>
  y.2.2 ≤ x.2.2

noncomputable instance : DecidableRel descSim := fun x y =>
  Real.decidableLE y.2 x.2

noncomputable instance : DecidableRel descSimIdx := fun x y =>
  Real.decidableLE y.2.2 x.2.2

instance : IsTotal (KNode × ℝ) descSim :=
  ⟨fun a b => le_total b.2 a.2⟩

instance : IsTrans (KNode × ℝ) descSim :=
  ⟨fun _ _ _ h1 h2 => le_trans h2 h1⟩

instance : IsTotal (ℕ × KNode × ℝ) descSimIdx :=
  ⟨fun a b => le_total b.2.2 a.2.2⟩

instance : IsTrans (ℕ × KNode × ℝ) descSimIdx :=
  ⟨fun _ _ _ h1 h2 => le_trans h2 h1⟩

/-- Modelled from the spec (§4.3): `search` of the missing backend
`server.py`.  Scores all nodes, sorts them by descending similarity with a
stable sort (ties keep the stored order, which is creation order) and
returns the first `searchK` entries. -/
noncomputable def search (q : Vec) (nodes : List KNode) : List (KNode × ℝ) :=
  ((scored q nodes).insertionSort descSim).take searchK

/-- The Search Ranker instrumented with each node's position in the stored
order (creation order): identical to `search` except that every entry also
carries its original index.  Used to state the tie-breaking guarantee. -/
noncomputable def searchIdx (q : Vec) (nodes : List KNode) :
    List (ℕ × KNode × ℝ) :=
  ((scored q nodes).enum.insertionSort descSimIdx).take searchK

theorem pair_sublist_of_lt {α : Type} (l : List α) {i j : ℕ}
    (hi : i < l.length) (hj : j < l.length) (hij : i < j) :
    List.Sublist [l[i], l[j]] l := by
  have hd : l.drop i = l[i] :: l.drop (i + 1) := List.drop_eq_getElem_cons hi
  have hjd : j - (i + 1) < (l.drop (i + 1)).length := by
    rw [List.length_drop]
    omega
  have hmem : l[j] ∈ l.drop (i + 1) := by
    rw [List.mem_iff_getElem]
    refine ⟨j - (i + 1), hjd, ?_⟩
    rw [List.getElem_drop]
    congr 1
    omega
  have h1 : List.Sublist [l[i], l[j]] (l[i] :: l.drop (i + 1)) :=
    (List.singleton_sublist.mpr hmem).cons₂ _
  exact h1.trans (hd ▸ l.drop_sublist i)

theorem nodup_pair_sublist_false {α : Type} {a b : α} {l : List α} (hn : l.Nodup)
    (hab : a ≠ b) (h1 : List.Sublist [a, b] l)
    (h2 : List.Sublist [b, a] l) : False := by
  induction l with
  | nil => simp at h1
  | cons c l ih =>
    rw [List.nodup_cons] at hn
    cases h1 with
    | cons _ h1' =>
      cases h2 with
      | cons _ h2' => exact ih hn.2 h1' h2'
      | cons₂ _ h2' =>
        exact hn.1 (h1'.subset (by simp))
    | cons₂ _ h1' =>
      cases h2 with
      | cons _ h2' =>
        exact hn.1 (h2'.subset (by simp))
      | cons₂ _ h2' => exact hab rfl

theorem enum_pairwise_fst_lt {α : Type} (l : List α) :
    l.enum.Pairwise fun a b => a.1 < b.1 := by
  have h1 : (l.enum.map Prod.fst).Pairwise (· < ·) := by
    rw [List.enum_map_fst]
    exact List.pairwise_lt_range _
  exact List.pairwise_map.mp h1

/-- C3: `search` returns exactly `min k n` results (so at most `k = 10`,
and all nodes when fewer than `k` exist), sorted by descending similarity;
it is the index-erasure of the instrumented ranker `searchIdx`, in which
any two tied entries (equal similarity) occur in strictly increasing
original (creation) order; and when at most `k` nodes exist the result is
a permutation of the full scored node list. -/
theorem search_spec (q : Vec) (nodes : List KNode) :
    (search q nodes).length = min searchK nodes.length ∧
    (search q nodes).Pairwise (fun x y => y.2 ≤ x.2) ∧
    search q nodes = (searchIdx q nodes).map Prod.snd ∧
    (∀ x y, List.Sublist [x, y] (searchIdx q nodes) → x.2.2 = y.2.2 →
      x.1 < y.1) ∧
    (nodes.length ≤ searchK → (search q nodes).Perm (scored q nodes)) := by
  have hslen : (scored q nodes).length = nodes.length := by simp [scored]
  refine ⟨?_, ?_, ?_, ?_, ?_⟩
  · rw [search, List.length_take, List.length_insertionSort, hslen]
  · have hsorted := List.sorted_insertionSort descSim (scored q nodes)
    exact List.Pairwise.sublist (List.take_sublist _ _) hsorted
  · have hmap : ((scored q nodes).enum.insertionSort descSimIdx).map Prod.snd
        = (scored q nodes).insertionSort descSim := by
      rw [List.map_insertionSort descSimIdx descSim Prod.snd _
        (fun a _ b _ => Iff.rfl), List.enum_map_snd]
    rw [search, searchIdx, List.map_take, hmap]
  · intro x y hxy hscore
    rw [searchIdx] at hxy
    have hsub : List.Sublist [x, y]
        ((scored q nodes).enum.insertionSort descSimIdx) :=
      hxy.trans (List.take_sublist _ _)
    have hperm := List.perm_insertionSort descSimIdx (scored q nodes).enum
    have hLpair := enum_pairwise_fst_lt (scored q nodes)
    have hLnodup : (scored q nodes).enum.Nodup :=
      hLpair.imp fun h heq => absurd (heq ▸ h) (lt_irrefl _)
    have hSnodup : ((scored q nodes).enum.insertionSort descSimIdx).Nodup :=
      hperm.nodup_iff.mpr hLnodup
    have hx : x ∈ (scored q nodes).enum :=
      hperm.mem_iff.mp (hsub.subset (by simp))
    have hy : y ∈ (scored q nodes).enum :=
      hperm.mem_iff.mp (hsub.subset (by simp))
    rcases List.mem_iff_getElem.mp hx with ⟨ix, hix, hxe⟩
    rcases List.mem_iff_getElem.mp hy with ⟨iy, hiy, hye⟩
    have hget : ∀ i j (hi : i < (scored q nodes).enum.length)
        (hj : j < (scored q nodes).enum.length), i < j →
        ((scored q nodes).enum[i]).1 < ((scored q nodes).enum[j]).1 := by
      intro i j hi hj hij
      have h4 := @List.Sorted.rel_get_of_lt _ _ _ hLpair ⟨i, hi⟩ ⟨j, hj⟩ hij
      simpa [List.get_eq_getElem] using h4
    rcases lt_trichotomy x.1 y.1 with h | h | h
    · exact h
    · exfalso
      have hxy_eq : x = y := by
        rcases lt_trichotomy ix iy with h2 | h2 | h2
        · exfalso
          have h3 := hget ix iy hix hiy h2
          rw [hxe, hye, h] at h3
          exact lt_irrefl _ h3
        · subst h2
          rw [← hxe, ← hye]
        · exfalso
          have h3 := hget iy ix hiy hix h2
          rw [hxe, hye, h] at h3
          exact lt_irrefl _ h3
      exact absurd ((hxy_eq ▸ hsub).nodup hSnodup) (by simp)
    · exfalso
      have hne : x ≠ y := fun he => absurd (he ▸ h) (lt_irrefl _)
      have hlt2 : iy < ix := by
        rcases lt_trichotomy iy ix with h2 | h2 | h2
        · exact h2
        · exfalso
          apply hne
          subst h2
          rw [← hxe, ← hye]
        · exfalso
          have h3 := hget ix iy hix hiy h2
          rw [hxe, hye] at h3
          exact lt_asymm h h3
      have hpair := pair_sublist_of_lt (scored q nodes).enum hiy hix hlt2
      rw [hxe, hye] at hpair
      have hstab : List.Sublist [y, x]
          ((scored q nodes).enum.insertionSort descSimIdx) :=
        List.pair_sublist_insertionSort (le_of_eq hscore) hpair
      exact nodup_pair_sublist_false hSnodup hne hsub hstab
  · intro hle
    have hlen2 : ((scored q nodes).insertionSort descSim).length ≤ searchK := by
      rw [List.length_insertionSort, hslen]
      exact hle
    rw [search, List.take_of_length_le hlen2]
    exact List.perm_insertionSort _ _

theorem searchIdx_eval :
    searchIdx e1 [nodeA, nodeB] = [(0, nodeA, (1 : ℝ)), (1, nodeB, 1)] := by
  have h1 : scored e1 [nodeA, nodeB] = [(nodeA, (1 : ℝ)), (nodeB, 1)] := by
    simp [scored, nodeA, nodeB, sim_e1]
  have h2 : ([((nodeA : KNode), (1 : ℝ)), (nodeB, 1)]).enum
      = [(0, nodeA, (1 : ℝ)), (1, nodeB, 1)] := by
    simp [List.enum]
  have h3 : ([((0 : ℕ), (nodeA : KNode), (1 : ℝ)),
        (1, nodeB, 1)]).insertionSort descSimIdx
      = [(0, nodeA, (1 : ℝ)), (1, nodeB, 1)] := by
    simp [List.insertionSort, List.orderedInsert, descSimIdx]
  rw [searchIdx, h1, h2, h3]
  exact List.take_of_length_le (by norm_num [searchK])

theorem search_spec_witness :
    List.Sublist [((0 : ℕ), nodeA, (1 : ℝ)), (1, nodeB, 1)]
        (searchIdx e1 [nodeA, nodeB]) ∧
      [nodeA, nodeB].length ≤ searchK ∧
      ((0 : ℕ), nodeA, (1 : ℝ)).1 < ((1 : ℕ), nodeB, (1 : ℝ)).1 ∧
      (search e1 [nodeA, nodeB]).Perm (scored e1 [nodeA, nodeB]) := by
  have hsub : List.Sublist [((0 : ℕ), nodeA, (1 : ℝ)), (1, nodeB, 1)]
      (searchIdx e1 [nodeA, nodeB]) := by
    rw [searchIdx_eval]
  have hlen : [nodeA, nodeB].length ≤ searchK := by norm_num [searchK]
  exact ⟨hsub, hlen,
    (search_spec e1 [nodeA, nodeB]).2.2.2.1 _ _ hsub rfl,
    (search_spec e1 [nodeA, nodeB]).2.2.2.2 hlen⟩

/-! ## Frontend: display of match percentages -/

/-- The percentage figure rendered by the search screen's `renderResult`
and by the node-detail screen's connection badge:
`Math.round(similarity * 100)`.  JS `Math.round` rounds half-integers
towards `+∞`, which is exactly Mathlib's `round`. -/
def renderMatchPercent (s : ℚ) : ℤ :=
  round (s * 100)

/-- C7: the engine's scores are raw cosine similarities in `[-1, 1]`, and
the percentage presentation is computed in the display layer as
`round(score * 100)`. -/
theorem similarity_range_and_percent :
    (∀ a b : Vec, -1 ≤ similarity a b ∧ similarity a b ≤ 1) ∧
    ∀ s : ℚ, renderMatchPercent s = round (s * 100) :=
  ⟨similarity_mem_Icc, fun _ => rfl⟩

/-! ## Frontend: JS string primitives -/

/-- JS strings as character lists. -/
abbrev Str := List Char

/-- Model of the JS `String.prototype.trim`: drop whitespace from both
ends. -/
def jsTrim (s : Str) : Str :=
  ((s.dropWhile Char.isWhitespace).reverse.dropWhile Char.isWhitespace).reverse

/-- Model of the JS `split(',')`: split at every comma; the empty string
yields one empty segment. -/
def splitOnComma : Str → List Str
  | [] => [[]]
  | c :: rest =>
    if c = ',' then [] :: splitOnComma rest
    else
      match splitOnComma rest with
      | [] => [[c]]
      | t :: ts => (c :: t) :: ts

/-! ## Frontend: the add-node screen (`AddNodeScreen`) -/

/-- From `handleSave`: `tags.split(',').map(t => t.trim()).filter(t =>
t.length > 0)`. -/
def parseTags (s : Str) : List Str :=
  ((splitOnComma s).map jsTrim).filter fun t => decide (0 < t.length)

/-- The JSON body `handleSave` posts to `POST /api/nodes`. -/
structure CreateNodeRequest where
  type : Str
  title : Str
  content : Str
  source : Option Str
  tags : List Str

/-- From `handleSave` of the add-node screen: the two validation guards
(`!title.trim()`, `!content.trim()`) each return early, producing no
request (`none`); otherwise the trimmed request body is posted
(`source.trim() || null` sends `null` for a blank source). -/
def handleSave (ty title content source tags : Str) :
    Option CreateNodeRequest :=
  if jsTrim title = [] then none
  else if jsTrim content = [] then none
  else some ⟨ty, jsTrim title, jsTrim content,
    if jsTrim source = [] then none else some (jsTrim source),
    parseTags tags⟩

/-- The five node types offered by the add-node screen (`NODE_TYPES`). -/
def NODE_TYPES : List Str :=
  [strL "book", strL "note", strL "article", strL "quote", strL "idea"]

/-- The reachable values of the add-node screen's `type` state: it is
initialised with `useState('note')` and only ever updated by the
type-selector buttons, which are generated from `NODE_TYPES`. -/
inductive TypeState : Str → Prop
  | init : TypeState (strL "note")
  | set (prev t : Str) (hp : TypeState prev) (ht : t ∈ NODE_TYPES) :
      TypeState t

/-- C5: whenever the title or the content is blank after trimming,
`handleSave` rejects the input and produces no request at all (no
embedding or repository call can happen, and no state is written). -/
theorem handleSave_validation (ty title content source tags : Str)
    (h : jsTrim title = [] ∨ jsTrim content = []) :
    handleSave ty title content source tags = none := by
  rcases h with h | h
  · rw [handleSave, if_pos h]
  · rw [handleSave]
    by_cases h1 : jsTrim title = []
    · rw [if_pos h1]
    · rw [if_neg h1, if_pos h]

theorem handleSave_validation_witness :
    (jsTrim (strL "   ") = [] ∨ jsTrim (strL "x") = []) ∧
      handleSave (strL "note") (strL "   ") (strL "x") (strL "") (strL "")
        = none :=
  ⟨Or.inl (by decide),
    handleSave_validation (strL "note") (strL "   ") (strL "x") (strL "")
      (strL "") (Or.inl (by decide))⟩

/-- C6: the `type` state can only ever hold one of the five closed node
types, and consequently every create-node request the screen sends
carries one of exactly these five values. -/
theorem nodeType_closed (t : Str) (h : TypeState t) :
    t ∈ NODE_TYPES ∧
    ∀ title content source tags req,
      handleSave t title content source tags = some req →
        req.type ∈ NODE_TYPES := by
  have hmem : t ∈ NODE_TYPES := by
    induction h with
    | init => simp [NODE_TYPES]
    | set prev u _hp hu => exact hu
  refine ⟨hmem, ?_⟩
  intro title content source tags req hreq
  rw [handleSave] at hreq
  by_cases h1 : jsTrim title = []
  · rw [if_pos h1] at hreq
    exact absurd hreq (by simp)
  · rw [if_neg h1] at hreq
    by_cases h2 : jsTrim content = []
    · rw [if_pos h2] at hreq
      exact absurd hreq (by simp)
    · rw [if_neg h2] at hreq
      have he := Option.some.inj hreq
      have ht : req.type = t := congrArg CreateNodeRequest.type he.symm
      rw [ht]
      exact hmem

theorem nodeType_closed_witness :
    TypeState (strL "note") ∧ strL "note" ∈ NODE_TYPES :=
  ⟨TypeState.init, (nodeType_closed (strL "note") TypeState.init).1⟩

/-- C8: `parseTags` keeps the comma-separated segments in their original
order without deduplication (it is a sublist of the trimmed segment list,
and every nonempty trimmed segment keeps its full multiplicity), each
kept tag is trimmed and nonempty, and blank segments are dropped. -/
theorem parseTags_spec (s : Str) :
    List.Sublist (parseTags s) ((splitOnComma s).map jsTrim) ∧
    (∀ t ∈ parseTags s, t ≠ []) ∧
    ∀ t : Str, t ≠ [] →
      (parseTags s).count t = ((splitOnComma s).map jsTrim).count t := by
  refine ⟨List.filter_sublist _, ?_, ?_⟩
  · intro t ht
    have h1 := (List.mem_filter.mp ht).2
    simp only [decide_eq_true_eq] at h1
    exact List.ne_nil_of_length_pos h1
  · intro t ht
    apply List.count_filter
    simpa using List.length_pos.mpr ht

theorem parseTags_spec_witness :
    (strL "a" ≠ ([] : Str)) ∧
      (parseTags (strL "a, b,,a")).count (strL "a")
        = ((splitOnComma (strL "a, b,,a")).map jsTrim).count (strL "a") :=
  ⟨by decide, (parseTags_spec (strL "a, b,,a")).2.2 (strL "a") (by decide)⟩

/-! ## Frontend: the graph screen (`GraphScreen`) -/

/-- A laid-out node of the graph screen (`NodePosition`). -/
structure NodePosition where
  id : Str
  type : Str
  title : Str
  x : ℤ
  y : ℤ
  deriving DecidableEq

/-- A connection record as served to the graph screen. -/
structure GConnection where
  fromNodeId : Str
  toNodeId : Str
  similarityScore : ℚ
  deriving DecidableEq

/-- A rendered connection line of the graph screen, keyed by the
connection's index (`line-${index}`). -/
structure ConnLine where
  key : ℕ
  x1 : ℤ
  y1 : ℤ
  x2 : ℤ
  y2 : ℤ
  weight : ℚ
  deriving DecidableEq

/-- The lookup in the `Map` the graph screen builds from
`nodePositions.map(n => [n.id, n])`: a JS `Map` keeps the last entry for a
duplicated key. -/
def nodeMapGet (ps : List NodePosition) (i : Str) : Option NodePosition :=
  ps.reverse.find? fun n => decide (n.id = i)

/-- The body of the `connections.map` callback in `getConnectionLines`:
if either endpoint is missing from the node map it returns `null`
(`none`), otherwise the line record with the connection's
`similarityScore` as its weight. -/
def connLineFor (ps : List NodePosition) (i : ℕ) (c : GConnection) :
    Option ConnLine :=
  (nodeMapGet ps c.fromNodeId).bind fun f =>
    (nodeMapGet ps c.toNodeId).map fun t =>
      ⟨i, f.x + 20, f.y + 20, t.x + 20, t.y + 20, c.similarityScore⟩

/-- From `getConnectionLines` of the graph screen: with no positioned
nodes it returns `[]`; otherwise it maps every connection through
`connLineFor` and filters out the `null` entries (`.filter(Boolean)`). -/
def getConnectionLines (ps : List NodePosition) (cs : List GConnection) :
    List ConnLine :=
  if ps.length = 0 then []
  else cs.enum.filterMap fun ic => connLineFor ps ic.1 ic.2

/-- C9: the graph screen renders a line for the `i`-th connection iff both
its endpoints resolve in the node map (a connection referencing a missing
node is silently dropped, never an error), and every rendered line's
weight is the corresponding connection's `similarityScore`. -/
theorem getConnectionLines_spec (ps : List NodePosition)
    (cs : List GConnection) :
    (∀ i (hi : i < cs.length),
      ((∃ l ∈ getConnectionLines ps cs, l.key = i) ↔
        ((nodeMapGet ps (cs.get ⟨i, hi⟩).fromNodeId).isSome ∧
          (nodeMapGet ps (cs.get ⟨i, hi⟩).toNodeId).isSome))) ∧
    ∀ l ∈ getConnectionLines ps cs, ∃ hk : l.key < cs.length,
      l.weight = (cs.get ⟨l.key, hk⟩).similarityScore := by
  by_cases hps : ps.length = 0
  · have hempty : getConnectionLines ps cs = [] := by
      rw [getConnectionLines, if_pos hps]
    have hnil : ps = [] := List.length_eq_zero.mp hps
    have hnone : ∀ s, nodeMapGet ps s = none := by
      intro s
      rw [nodeMapGet, hnil]
      rfl
    constructor
    · intro i hi
      rw [hempty]
      simp [hnone]
    · intro l hl
      rw [hempty] at hl
      exact absurd hl (by simp)
  · have hlines : getConnectionLines ps cs
        = cs.enum.filterMap fun ic => connLineFor ps ic.1 ic.2 := by
      rw [getConnectionLines, if_neg hps]
    constructor
    · intro i hi
      rw [hlines]
      constructor
      · rintro ⟨l, hl, hkey⟩
        rcases List.mem_filterMap.mp hl with ⟨⟨j, c⟩, hjc, hf⟩
        rw [connLineFor] at hf
        rcases hfv : nodeMapGet ps c.fromNodeId with _ | f
        · rw [hfv] at hf
          exact absurd hf (by simp)
        · rw [hfv] at hf
          rcases htv : nodeMapGet ps c.toNodeId with _ | t
          · rw [htv] at hf
            exact absurd hf (by simp)
          · rw [htv] at hf
            simp only [Option.some_bind, Option.map_some'] at hf
            have hl_eq := Option.some.inj hf
            have hkey2 : l.key = j := by rw [← hl_eq]
            have hij : j = i := by rw [← hkey, hkey2]
            subst hij
            have hc : cs[j]? = some c := List.mk_mem_enum_iff_getElem?.mp hjc
            rw [List.getElem?_eq_getElem hi] at hc
            have hc2 : cs.get ⟨j, hi⟩ = c := by
              rw [List.get_eq_getElem]
              exact Option.some.inj hc
            rw [hc2, hfv, htv]
            simp
      · rintro ⟨hf, ht⟩
        rcases Option.isSome_iff_exists.mp hf with ⟨f, hfv⟩
        rcases Option.isSome_iff_exists.mp ht with ⟨t, htv⟩
        refine ⟨⟨i, f.x + 20, f.y + 20, t.x + 20, t.y + 20,
          (cs.get ⟨i, hi⟩).similarityScore⟩, ?_, rfl⟩
        apply List.mem_filterMap.mpr
        refine ⟨(i, cs.get ⟨i, hi⟩), ?_, ?_⟩
        · apply List.mk_mem_enum_iff_getElem?.mpr
          rw [List.get_eq_getElem]
          exact List.getElem?_eq_getElem hi
        · rw [connLineFor, hfv, htv]
          rfl
    · intro l hl
      rw [hlines] at hl
      rcases List.mem_filterMap.mp hl with ⟨⟨j, c⟩, hjc, hf⟩
      rw [connLineFor] at hf
      rcases hfv : nodeMapGet ps c.fromNodeId with _ | f
      · rw [hfv] at hf
        exact absurd hf (by simp)
      · rw [hfv] at hf
        rcases htv : nodeMapGet ps c.toNodeId with _ | t
        · rw [htv] at hf
          exact absurd hf (by simp)
        · rw [htv] at hf
          simp only [Option.some_bind, Option.map_some'] at hf
          have hl_eq := Option.some.inj hf
          have hc : cs[j]? = some c := List.mk_mem_enum_iff_getElem?.mp hjc
          have hj : j < cs.length := by
            by_contra hcon
            rw [List.getElem?_eq_none (le_of_not_lt hcon)] at hc
            exact absurd hc (by simp)
          have hc2 : cs.get ⟨j, hj⟩ = c := by
            rw [List.get_eq_getElem]
            rw [List.getElem?_eq_getElem hj] at hc
            exact Option.some.inj hc
          subst hl_eq
          refine ⟨hj, ?_⟩
          show c.similarityScore = (cs.get ⟨j, hj⟩).similarityScore
          rw [hc2]

def p1 : NodePosition := ⟨strL "n1", strL "note", strL "t", 0, 0⟩

def cGood : GConnection := ⟨strL "n1", strL "n1", 1⟩

def cBad : GConnection := ⟨strL "n1", strL "zz", 0⟩

def lineGood : ConnLine := ⟨0, 20, 20, 20, 20, 1⟩

theorem getConnectionLines_spec_witness :
    (∃ l ∈ getConnectionLines [p1] [cGood, cBad], l.key = 0) ∧
      lineGood ∈ getConnectionLines [p1] [cGood, cBad] ∧
      ∃ hk : lineGood.key < ([cGood, cBad] : List GConnection).length,
        lineGood.weight
          = (([cGood, cBad] : List GConnection).get
              ⟨lineGood.key, hk⟩).similarityScore :=
  ⟨((getConnectionLines_spec [p1] [cGood, cBad]).1 0 (by decide)).mpr
      (by decide),
    by decide,
    (getConnectionLines_spec [p1] [cGood, cBad]).2 lineGood (by decide)⟩

/-! ## Frontend: the search screen (`SearchScreen`) -/

/-- A search result entry as displayed by the search screen. -/
structure SearchResult where
  nodeId : Str
  nodeType : Str
  title : Str
  content : Str
  tags : List Str
  similarity : ℚ

/-- The component state of the search screen. -/
structure SearchScreenState where
  query : Str
  results : List SearchResult
  loading : Bool
  searched : Bool

/-- From `handleSearch` of the search screen: `if (!query.trim()) return;`
— with a blank query no request is issued and the state is untouched;
otherwise the trimmed query is posted after `loading` and `searched` are
set. -/
def handleSearch (s : SearchScreenState) : Option Str × SearchScreenState :=
  if jsTrim s.query = [] then (none, s)
  else (some (jsTrim s.query),
    { s with loading := true, searched := true })

/-- C10: for a query that is empty (or whitespace-only) after trimming,
`handleSearch` sends no request and leaves `results`, `searched` and
`loading` (indeed the whole state) unchanged. -/
theorem handleSearch_blank (s : SearchScreenState)
    (h : jsTrim s.query = []) :
    (handleSearch s).1 = none ∧
    (handleSearch s).2.results = s.results ∧
    (handleSearch s).2.searched = s.searched ∧
    (handleSearch s).2.loading = s.loading ∧
    (handleSearch s).2 = s := by
  rw [handleSearch]
  simp [h]

def blankState : SearchScreenState := ⟨strL "  ", [], false, false⟩

theorem handleSearch_blank_witness :
    jsTrim blankState.query = [] ∧
      (handleSearch blankState).1 = none ∧
      (handleSearch blankState).2 = blankState :=
  ⟨by decide,
    (handleSearch_blank blankState (by decide)).1,
    (handleSearch_blank blankState (by decide)).2.2.2.2⟩

end Syntra
